import Mathlib

/-
Verification of the pymanoid numeric control core: a shallow embedding of
the velocity IK solver (pymanoid/ik.py) and the linear preview controller
with its sample buffer (pymanoid/mpc.py), with theorems checking the
specified properties against the embedded code.

Matrices and vectors are rational valued with explicit dimensions; entries
are total functions and are only meaningful below the stated dimensions.
The external QP backend is modelled as a function parameter returning an
optional solution vector.
-/

namespace Pymanoid

/-- Rational matrix with explicit dimensions. Entries are read only at
indices below the dimensions. -/
structure Mat where
  rows : ℕ
  cols : ℕ
  entry : ℕ → ℕ → ℚ

/-- Rational vector with explicit length. -/
structure Vec where
  len : ℕ
  entry : ℕ → ℚ

def Mat.eye (n : ℕ) : Mat :=
  ⟨n, n, fun i j => if i = j then 1 else 0⟩

def Mat.zeros (m n : ℕ) : Mat :=
  ⟨m, n, fun _ _ => 0⟩

def Vec.zeros (n : ℕ) : Vec :=
  ⟨n, fun _ => 0⟩

/-- Matrix product, summing over the column count of the left factor
(numpy dot on conforming shapes). -/
def Mat.mul (A B : Mat) : Mat :=
  ⟨A.rows, B.cols, fun i j => ∑ k ∈ Finset.range A.cols, A.entry i k * B.entry k j⟩

def Mat.transpose (A : Mat) : Mat :=
  ⟨A.cols, A.rows, fun i j => A.entry j i⟩

def Mat.add (A B : Mat) : Mat :=
  ⟨A.rows, A.cols, fun i j => A.entry i j + B.entry i j⟩

def Mat.smul (c : ℚ) (A : Mat) : Mat :=
  ⟨A.rows, A.cols, fun i j => c * A.entry i j⟩

def Mat.neg (A : Mat) : Mat :=
  ⟨A.rows, A.cols, fun i j => -A.entry i j⟩

/-- Vertical stacking of two matrices (numpy vstack). -/
def Mat.vstack (A B : Mat) : Mat :=
  ⟨A.rows + B.rows, A.cols, fun i j => if i < A.rows then A.entry i j else B.entry (i - A.rows) j⟩

/-- First k rows of a matrix (numpy M[:k]). -/
def Mat.topRows (k : ℕ) (A : Mat) : Mat :=
  ⟨k, A.cols, A.entry⟩

/-- Matrix times vector. -/
def Mat.mulVec (A : Mat) (v : Vec) : Vec :=
  ⟨A.rows, fun i => ∑ j ∈ Finset.range A.cols, A.entry i j * v.entry j⟩

/-- Row vector times matrix (numpy dot(v, A)). -/
def Vec.mulMat (v : Vec) (A : Mat) : Vec :=
  ⟨A.cols, fun j => ∑ i ∈ Finset.range A.rows, v.entry i * A.entry i j⟩

def Vec.add (a b : Vec) : Vec :=
  ⟨a.len, fun i => a.entry i + b.entry i⟩

def Vec.sub (a b : Vec) : Vec :=
  ⟨a.len, fun i => a.entry i - b.entry i⟩

def Vec.neg (a : Vec) : Vec :=
  ⟨a.len, fun i => -a.entry i⟩

def Vec.smul (c : ℚ) (a : Vec) : Vec :=
  ⟨a.len, fun i => c * a.entry i⟩

def Vec.divScalar (a : Vec) (c : ℚ) : Vec :=
  ⟨a.len, fun i => a.entry i / c⟩

/-- Componentwise minimum (numpy minimum). -/
def Vec.minV (a b : Vec) : Vec :=
  ⟨a.len, fun i => min (a.entry i) (b.entry i)⟩

/-- Componentwise maximum (numpy maximum). -/
def Vec.maxV (a b : Vec) : Vec :=
  ⟨a.len, fun i => max (a.entry i) (b.entry i)⟩

/-- Concatenation of two vectors (numpy hstack). -/
def Vec.append (a b : Vec) : Vec :=
  ⟨a.len + b.len, fun i => if i < a.len then a.entry i else b.entry (i - a.len)⟩

/-- Column selection by an index list (numpy M[:, idx]). -/
def Mat.colSelect (A : Mat) (idx : List ℕ) : Mat :=
  ⟨A.rows, idx.length, fun i j => A.entry i (idx.getD j 0)⟩

/-- Entry selection by an index list (numpy v[idx]). -/
def Vec.select (v : Vec) (idx : List ℕ) : Vec :=
  ⟨idx.length, fun i => v.entry (idx.getD i 0)⟩

/-- Overwrite the columns in [lo, hi) with the matching columns of B
(numpy M[:, lo:hi] = B). -/
def Mat.setColsBlock (M : Mat) (lo hi : ℕ) (B : Mat) : Mat :=
  ⟨M.rows, M.cols, fun i j => if lo ≤ j ∧ j < hi then B.entry i (j - lo) else M.entry i j⟩

/- ------------------------------------------------------------------ -/
/- ik.py: tasks and the velocity solver                               -/
/- ------------------------------------------------------------------ -/

/-- A task of the IK solver (pymanoid Task contract): a name, a type used
for default gain and weight lookup, an optional gain and weight, a
Jacobian over the full DOFs, and a residual depending on the time step. -/
structure Task where
  name : String
  task_type : String
  gain : Option ℚ
  weight : Option ℚ
  jacobian : Mat
  residual : ℚ → Vec

/-- The read-only joint state of the external kinematic model consumed by
compute_velocity. -/
structure Robot where
  nb_active_dofs : ℕ
  active_dofs : List ℕ
  q_active : Vec
  q_min : Vec
  q_max : Vec
  qd_min : Vec
  qd_max : Vec

/-- Error kinds raised by the velocity solver, matching the exception
messages of ik.py. -/
inductive IKError where
  | duplicateTask
  | missingWeight
  | invalidGain
  | invalidWeight
  | unresolvedWeight
  | infeasible
deriving DecidableEq

/-- The velocity solver state: default gain and weight tables and the task
registry (a name-keyed association list standing for the Python dict). -/
structure VelocitySolver where
  default_gains : List (String × ℚ)
  default_weights : List (String × ℚ)
  doflim_gain : ℚ
  tasks : List (String × Task)

/-- VelocitySolver.add_task from ik.py. The duplicate check happens first;
then, mirroring the Python statement order, the task is inserted into the
registry BEFORE gain and weight resolution and validation, and a raised
validation error leaves the mutated registry behind (the pair returns the
error alongside the post-call state). -/
def VelocitySolver.add_task (s : VelocitySolver) (task : Task) :
    Option IKError × VelocitySolver :=
  if (s.tasks.lookup task.name).isSome then
    (some IKError.duplicateTask, s)
  else
    let gain1 := match task.gain with
      | none => s.default_gains.lookup task.task_type
      | some g => some g
    let weight1 := match task.weight with
      | none => s.default_weights.lookup task.task_type
      | some w => some w
    let task1 : Task :=
      { task with gain := gain1, weight := weight1 }
    let s1 : VelocitySolver :=
      { s with tasks := s.tasks ++ [(task.name, task1)] }
    match weight1 with
    | none => (some IKError.missingWeight, s1)
    | some w =>
      match gain1 with
      | some g =>
        if 1 < g then (some IKError.invalidGain, s1)
        else if w < 0 then (some IKError.invalidWeight, s1)
        else (none, s1)
      | none =>
        if w < 0 then (some IKError.invalidWeight, s1)
        else (none, s1)

/-- VelocitySolver.remove_task from ik.py: removes the named entry when
present, otherwise warns and leaves the registry unchanged. -/
def VelocitySolver.remove_task (s : VelocitySolver) (name : String) : VelocitySolver :=
  if (s.tasks.lookup name).isSome then
    { s with tasks := s.tasks.eraseP (fun p => p.1 == name) }
  else s

/-- Weight of a task, assuming it has been resolved. -/
def wtOf (task : Task) : ℚ := task.weight.getD 0

/-- The per-task accumulation loop of compute_velocity: for each task,
J = jacobian restricted to the active DOFs and r = residual(dt), and
P grows by weight * Jt * J while q grows by weight * dot(-r, J). -/
def qpAccum (n : ℕ) (active_dofs : List ℕ) (dt : ℚ) (tasks : List Task) : Mat × Vec :=
  tasks.foldl
    (fun acc task =>
      let J := Mat.colSelect task.jacobian active_dofs
      let r := task.residual dt
      (Mat.add acc.1 (Mat.smul (wtOf task) (Mat.mul (Mat.transpose J) J)),
       Vec.add acc.2 (Vec.smul (wtOf task) (Vec.mulMat (Vec.neg r) J))))
    (Mat.zeros n n, Vec.zeros n)

/-- Second definition, following the words of the spec: the linear term
grows by weight * dot(-(r / dt), J), with the residual divided by the time
step. Compared against the code accumulation qpAccum. -/
def qpQspecDt (n : ℕ) (active_dofs : List ℕ) (dt : ℚ) (tasks : List Task) : Vec :=
  tasks.foldl
    (fun acc task =>
      let J := Mat.colSelect task.jacobian active_dofs
      let r := task.residual dt
      Vec.add acc (Vec.smul (wtOf task) (Vec.mulMat (Vec.neg (Vec.divScalar r dt)) J)))
    (Vec.zeros n)

/-- Upper DOF-limit avoidance bound of compute_velocity:
doflim_gain * (q_max - q) / dt on the active DOFs. -/
def qdMaxDoflim (robot : Robot) (doflim_gain dt : ℚ) : Vec :=
  Vec.divScalar
    (Vec.smul doflim_gain (Vec.sub (Vec.select robot.q_max robot.active_dofs) robot.q_active)) dt

/-- Lower DOF-limit avoidance bound of compute_velocity. -/
def qdMinDoflim (robot : Robot) (doflim_gain dt : ℚ) : Vec :=
  Vec.divScalar
    (Vec.smul doflim_gain (Vec.sub (Vec.select robot.q_min robot.active_dofs) robot.q_active)) dt

/-- Effective velocity upper bound: minimum(qd_max, qd_max_doflim). -/
def qdMaxPrime (robot : Robot) (doflim_gain dt : ℚ) : Vec :=
  Vec.minV (Vec.select robot.qd_max robot.active_dofs) (qdMaxDoflim robot doflim_gain dt)

/-- Effective velocity lower bound: maximum(qd_min, qd_min_doflim). -/
def qdMinPrime (robot : Robot) (doflim_gain dt : ℚ) : Vec :=
  Vec.maxV (Vec.select robot.qd_min robot.active_dofs) (qdMinDoflim robot doflim_gain dt)

/-- Inequality matrix assembled by compute_velocity: vstack of the identity
and its negation. -/
def qpG (n : ℕ) : Mat :=
  Mat.vstack (Mat.eye n) (Mat.neg (Mat.eye n))

/-- Inequality vector assembled by compute_velocity: hstack of the upper
bound and the negated lower bound. -/
def qpH (robot : Robot) (doflim_gain dt : ℚ) : Vec :=
  Vec.append (qdMaxPrime robot doflim_gain dt) (Vec.neg (qdMinPrime robot doflim_gain dt))

/-- VelocitySolver.compute_velocity from ik.py, with the QP backend passed
as a function. An unset task weight at solve time surfaces as an error
(the Python code would fail multiplying None); backend failure surfaces as
infeasibility. -/
def VelocitySolver.compute_velocity
    (solver : Mat → Vec → Mat → Vec → Option Vec)
    (s : VelocitySolver) (robot : Robot) (dt : ℚ) : Except IKError Vec :=
  let n := robot.nb_active_dofs
  let taskList := s.tasks.map Prod.snd
  if taskList.any (fun t => t.weight.isNone) then
    Except.error IKError.unresolvedWeight
  else
    let acc := qpAccum n robot.active_dofs dt taskList
    match solver acc.1 acc.2 (qpG n) (qpH robot s.doflim_gain dt) with
    | some qd => Except.ok qd
    | none => Except.error IKError.infeasible

/- ------------------------------------------------------------------ -/
/- mpc.py: PreviewBuffer                                              -/
/- ------------------------------------------------------------------ -/

/-- A filled preview plan: the stacked control trajectory U and the fixed
per-sample timestep. -/
structure Plan where
  U : List ℚ
  timestep : ℚ

/-- PreviewBuffer state: currently held control, optional plan, read
cursor, and time remaining on the held sample. The Python initial
cur_control is None; it is modelled as the empty list and is never
published before the first pull. -/
structure PBState where
  cur_control : List ℚ
  preview : Option Plan
  preview_index : ℕ
  rem_time : ℚ

def PreviewBuffer.initState : PBState :=
  ⟨[], none, 0, 0⟩

/-- PreviewBuffer.update_preview: install a plan and reset the cursor. -/
def PreviewBuffer.update_preview (s : PBState) (p : Plan) : PBState :=
  { s with preview_index := 0, preview := some p }

/-- PreviewBuffer.get_next_control from mpc.py: with no plan, returns a
zero control of length 3 with zero timestep; otherwise reads the slice
U[3 i : 3 i + 3]; an empty slice discards the plan and returns the zero
control, a nonempty slice is returned with the plan timestep and the
cursor advances by one. The block width 3 is fixed in the code. -/
def PreviewBuffer.get_next_control (s : PBState) : (List ℚ × ℚ) × PBState :=
  match s.preview with
  | none => ((List.replicate 3 0, 0), s)
  | some p =>
    let j := 3 * s.preview_index
    let u := (p.U.drop j).take 3
    if u.length = 0 then
      ((List.replicate 3 0, 0), { s with preview := none })
    else
      ((u, p.timestep), { s with preview_index := s.preview_index + 1 })

/-- PreviewBuffer.on_tick from mpc.py: when the held time runs below the
tick size, pull a fresh control and adopt its timestep as the held time;
publish the held control with the tick size to the callback (the returned
pair); then decrement the held time by the tick size. -/
def PreviewBuffer.on_tick (s : PBState) (dt : ℚ) : (List ℚ × ℚ) × PBState :=
  let s1 :=
    if s.rem_time < dt then
      let res := PreviewBuffer.get_next_control s
      { res.2 with cur_control := res.1.1, rem_time := res.1.2 }
    else s
  ((s1.cur_control, dt), { s1 with rem_time := s1.rem_time - dt })

/-- State after t ticks of size dt starting from s. -/
def pbIter (dt : ℚ) (s : PBState) : ℕ → PBState
  | 0 => s
  | Nat.succ t => (PreviewBuffer.on_tick (pbIter dt s t) dt).2

/-- Pair passed to the callback on tick number t + 1. -/
def pbPub (dt : ℚ) (s : PBState) (t : ℕ) : List ℚ × ℚ :=
  (PreviewBuffer.on_tick (pbIter dt s t) dt).1

/-- The k-th control sample of a stacked trajectory, at the fixed block
width 3 of get_next_control. -/
def sampleAt (U : List ℚ) (k : ℕ) : List ℚ :=
  (U.drop (3 * k)).take 3

/-- Fresh buffer holding a given plan. -/
def planBuf (U : List ℚ) (T : ℚ) : PBState :=
  PreviewBuffer.update_preview PreviewBuffer.initState ⟨U, T⟩

/- ------------------------------------------------------------------ -/
/- mpc.py: PreviewControl                                             -/
/- ------------------------------------------------------------------ -/

/-- Error kinds of the preview controller: the assert on an unbuilt
psi_last, the assert that state constraints are absent at solve time, and
backend infeasibility. -/
inductive PCError where
  | notBuilt
  | stateConstraintsAsserted
  | infeasible
deriving DecidableEq

/-- PreviewControl state, mirroring the attributes set by the constructor
and by compute_dynamics (phi_last and psi_last start as None; G_state and
h_state are filled by compute_dynamics). -/
structure PCState where
  A : Mat
  B : Mat
  E : Option Mat
  G : Mat
  U_dim : ℕ
  X_dim : ℕ
  f : Option Vec
  h : Vec
  nb_steps : ℕ
  u_dim : ℕ
  x_dim : ℕ
  x_goal : Vec
  x_init : Vec
  wu : ℚ
  wx : ℚ
  phi_last : Option Mat
  psi_last : Option Mat
  G_state : List Mat
  h_state : List Vec

/-- PreviewControl constructor body: pure attribute assignment, with
u_dim = B.cols, x_dim = A.cols, U_dim = u_dim * nb_steps. -/
def PreviewControl.initState (A B G : Mat) (h : Vec) (x_init x_goal : Vec)
    (nb_steps : ℕ) (E : Option Mat) (f : Option Vec) (wx wu : ℚ) : PCState :=
  { A := A
    B := B
    E := E
    G := G
    U_dim := B.cols * nb_steps
    X_dim := A.cols * nb_steps
    f := f
    h := h
    nb_steps := nb_steps
    u_dim := B.cols
    x_dim := A.cols
    x_goal := x_goal
    x_init := x_init
    wu := wu
    wx := wx
    phi_last := none
    psi_last := none
    G_state := []
    h_state := [] }

/-- PreviewControl constructor as an error-aware call: the Python
constructor contains no validation and no raise, so it always succeeds. -/
def PreviewControl.init (A B G : Mat) (h : Vec) (x_init x_goal : Vec)
    (nb_steps : ℕ) (E : Option Mat) (f : Option Vec) (wx wu : ℚ) :
    Except PCError PCState :=
  Except.ok (PreviewControl.initState A B G h x_init x_goal nb_steps E f wx wu)

/-- Accumulator of the compute_dynamics loop. -/
structure DynAcc where
  phi : Mat
  psi : Mat
  G_list : List Mat
  h_list : List Vec

/-- One iteration of the compute_dynamics loop at step k: first, when
state constraints are present, append the constraint block derived from
the current phi and psi (the Python code with E set also requires f set,
otherwise it would fail subtracting from None); then update
phi to A * phi and psi to A * psi with columns [u_dim k, u_dim (k+1))
overwritten by B. -/
def dynStep (st : PCState) (acc : DynAcc) (k : ℕ) : DynAcc :=
  let G_list1 := match st.E with
    | none => acc.G_list
    | some Em => acc.G_list ++ [Mat.mul Em (Mat.topRows 3 acc.psi)]
  let h_list1 := match st.E, st.f with
    | some Em, some fv =>
        acc.h_list ++ [Vec.sub fv (Mat.mulVec (Mat.mul Em (Mat.topRows 3 acc.phi)) st.x_init)]
    | _, _ => acc.h_list
  let phi1 := Mat.mul st.A acc.phi
  let psi1 := Mat.setColsBlock (Mat.mul st.A acc.psi) (st.u_dim * k) (st.u_dim * (k + 1)) st.B
  ⟨phi1, psi1, G_list1, h_list1⟩

/-- PreviewControl.compute_dynamics from mpc.py: fold the per-step update
over k = 0 .. nb_steps - 1 starting from phi = identity and psi = zero,
then store the accumulated state-constraint blocks and the final phi and
psi. -/
def PreviewControl.compute_dynamics (st : PCState) : PCState :=
  let acc := (List.range st.nb_steps).foldl (dynStep st)
    ⟨Mat.eye st.x_dim, Mat.zeros st.x_dim st.U_dim, [], []⟩
  { st with
    G_state := acc.G_list
    h_state := acc.h_list
    phi_last := some acc.phi
    psi_last := some acc.psi }

/-- The recurrence of the spec for the state propagation matrix:
Phi 0 = identity, Phi (k+1) = A * Phi k. -/
def phiSpec (A : Mat) (x_dim : ℕ) : ℕ → Mat
  | 0 => Mat.eye x_dim
  | k + 1 => Mat.mul A (phiSpec A x_dim k)

/-- The recurrence of the spec for the control propagation matrix:
Psi 0 = zero, Psi (k+1) = A * Psi k with the k-th control block, columns
[u_dim k, u_dim (k+1)), set to B. -/
def psiSpec (A Bm : Mat) (x_dim u_dim U_dim : ℕ) : ℕ → Mat
  | 0 => Mat.zeros x_dim U_dim
  | k + 1 =>
    Mat.setColsBlock (Mat.mul A (psiSpec A Bm x_dim u_dim U_dim k))
      (u_dim * k) (u_dim * (k + 1)) Bm

/-- Quadratic cost matrix built by compute_control:
wx * (psiT * psi) + wu * identity. -/
def ccP (st : PCState) (psiL : Mat) : Mat :=
  Mat.add (Mat.smul st.wx (Mat.mul (Mat.transpose psiL) psiL))
    (Mat.smul st.wu (Mat.eye st.U_dim))

/-- Linear cost vector built by compute_control:
wx * (-(x_goal - phi * x_init)T * psi) + wu * 0. -/
def ccQ (st : PCState) (psiL phiL : Mat) : Vec :=
  Vec.add
    (Vec.smul st.wx (Vec.neg (Vec.mulMat (Vec.sub st.x_goal (Mat.mulVec phiL st.x_init)) psiL)))
    (Vec.smul st.wu (Vec.zeros st.U_dim))

/-- Stacked inequality matrix of compute_control: G alone when no state
constraints, otherwise vstack of G with all accumulated state blocks. -/
def ccG (st : PCState) : Mat :=
  match st.E with
  | none => st.G
  | some _ => st.G_state.foldl Mat.vstack st.G

/-- Stacked inequality vector of compute_control. -/
def ccH (st : PCState) : Vec :=
  match st.E with
  | none => st.h
  | some _ => st.h_state.foldl Vec.append st.h

/-- PreviewControl.compute_control from mpc.py: asserts that
compute_dynamics ran (psi_last set; an unset phi_last would equally fail
inside the dot product), builds the weighted cost, stacks the
inequalities, asserts that no state constraints are present, and solves
the QP through the backend. -/
def PreviewControl.compute_control (st : PCState)
    (solver : Mat → Vec → Mat → Vec → Option Vec) : Except PCError Vec :=
  match st.psi_last, st.phi_last with
  | some psiL, some phiL =>
    let P := ccP st psiL
    let q := ccQ st psiL phiL
    let G := ccG st
    let h := ccH st
    match st.E with
    | some _ => Except.error PCError.stateConstraintsAsserted
    | none =>
      match solver P q G h with
      | some U => Except.ok U
      | none => Except.error PCError.infeasible
  | _, _ => Except.error PCError.notBuilt

/- ------------------------------------------------------------------ -/
/- Concrete fixtures                                                  -/
/- ------------------------------------------------------------------ -/

/-- A registered task used by concrete instances. -/
def taskA : Task :=
  ⟨"a", "ty", some (1 / 2), some 1, Mat.eye 1, fun _ => Vec.zeros 1⟩

/-- A second task carrying the same name as taskA. -/
def taskA2 : Task :=
  ⟨"a", "ty", none, some 2, Mat.eye 1, fun _ => Vec.zeros 1⟩

/-- A solver state already holding taskA. -/
def solverA : VelocitySolver :=
  ⟨[], [], 1 / 2, [("a", taskA)]⟩

/-- A task with gain -1/2, outside (0, 1]. -/
def taskBadGain : Task :=
  ⟨"tg", "ty", some (-(1 / 2)), some 1, Mat.eye 1, fun _ => Vec.zeros 1⟩

/-- A task with weight -1. -/
def taskBadWeight : Task :=
  ⟨"tw", "ty", none, some (-1), Mat.eye 1, fun _ => Vec.zeros 1⟩

/-- A solver state with empty registry and default tables. -/
def emptyIK : VelocitySolver :=
  ⟨[], [], 1 / 2, []⟩

/-- One-dimensional unit task: J = [[1]], residual = [1], weight 1. -/
def taskC1 : Task :=
  ⟨"c1", "ty", some 1, some 1, ⟨1, 1, fun _ _ => 1⟩, fun _ => ⟨1, fun _ => 1⟩⟩

/- ------------------------------------------------------------------ -/
/- Claim theorems                                                     -/
/- ------------------------------------------------------------------ -/

/-- C1 (counterexample): in compute_velocity at dt = 2 with a single task
of weight 1, Jacobian [[1]] and residual [1], the code accumulates the
linear term weight * dot(-r, J) = -1, while the claimed formula
weight * dot(-(r / dt), J) gives -1/2; the two differ, so the linear term
is not divided by dt. -/
theorem velocity_linear_term_counterexample :
    (qpAccum 1 [0] 2 [taskC1]).2.entry 0 = -1 ∧
    (qpQspecDt 1 [0] 2 [taskC1]).entry 0 = -(1 / 2) ∧
    (qpAccum 1 [0] 2 [taskC1]).2.entry 0 ≠ (qpQspecDt 1 [0] 2 [taskC1]).entry 0 := by
  refine ⟨?_, ?_, ?_⟩ <;>
    norm_num [qpAccum, qpQspecDt, taskC1, wtOf, Vec.add, Vec.smul, Vec.mulMat, Vec.neg,
      Vec.divScalar, Mat.colSelect, Vec.zeros, Finset.sum_range_one]

/-- C1 (amended): for every registered task with resolved weight w, each
time step dt, and active-DOF restriction J of its Jacobian, the
accumulation of compute_velocity grows the quadratic term by w * Jt * J
and the linear term by w * dot(-r, J) with r = residual(dt); the linear
term is not additionally divided by dt inside compute_velocity. -/
theorem velocity_qp_per_task_growth (n : ℕ) (ad : List ℕ) (dt : ℚ)
    (tasks : List Task) (t : Task) (w : ℚ) (hw : t.weight = some w) :
    qpAccum n ad dt (tasks ++ [t]) =
      (Mat.add (qpAccum n ad dt tasks).1
         (Mat.smul w (Mat.mul (Mat.transpose (Mat.colSelect t.jacobian ad))
            (Mat.colSelect t.jacobian ad))),
       Vec.add (qpAccum n ad dt tasks).2
         (Vec.smul w (Vec.mulMat (Vec.neg (t.residual dt)) (Mat.colSelect t.jacobian ad)))) := by
  simp [qpAccum, List.foldl_append, wtOf, hw]

/-- Witness for the amended C1 theorem at a concrete task list. -/
theorem velocity_qp_per_task_growth_witness :
    taskC1.weight = some 1 ∧
    qpAccum 1 [0] 2 ([] ++ [taskC1]) =
      (Mat.add (qpAccum 1 [0] 2 []).1
         (Mat.smul 1 (Mat.mul (Mat.transpose (Mat.colSelect taskC1.jacobian [0]))
            (Mat.colSelect taskC1.jacobian [0]))),
       Vec.add (qpAccum 1 [0] 2 []).2
         (Vec.smul 1 (Vec.mulMat (Vec.neg (taskC1.residual 2)) (Mat.colSelect taskC1.jacobian [0])))) :=
  ⟨rfl, velocity_qp_per_task_growth 1 [0] 2 [] taskC1 1 rfl⟩

/-- C6 (code evaluated at the failing inputs): add_task accepts a task
with gain -1/2 and weight 1 (no error; only gain > 1 is rejected though
the raise message documents the range (0, 1)), leaving a registered task
whose gain is not positive; and add_task on a task with unresolvable
negative weight raises invalidWeight yet leaves that task registered,
because the registry is mutated before validation. -/
theorem add_task_invariant_violated :
    (emptyIK.add_task taskBadGain).1 = none ∧
    ((emptyIK.add_task taskBadGain).2.tasks.lookup "tg") = some taskBadGain ∧
    ¬ (0 < (-(1 / 2) : ℚ)) ∧
    (((emptyIK.add_task taskBadGain).2.add_task taskBadWeight).1 = some IKError.invalidWeight) ∧
    ((((emptyIK.add_task taskBadGain).2.add_task taskBadWeight).2.tasks.lookup "tw")
      = some taskBadWeight) ∧
    taskBadWeight.weight = some (-1) ∧ ¬ ((0 : ℚ) ≤ -1) := by
  refine ⟨?_, ?_, by norm_num, ?_, ?_, rfl, by norm_num⟩ <;>
    norm_num [VelocitySolver.add_task, emptyIK, taskBadGain, taskBadWeight, List.lookup,
      show ("tw" == "tg") = false from rfl]

/-- C7: adding a task whose name is already registered fails with the
duplicate-task error and returns the registry unchanged. -/
theorem add_task_duplicate_rejected (s : VelocitySolver) (task : Task)
    (hdup : (s.tasks.lookup task.name).isSome = true) :
    s.add_task task = (some IKError.duplicateTask, s) := by
  unfold VelocitySolver.add_task
  rw [if_pos hdup]

/-- Witness for C7 at a concrete registry holding a task named a. -/
theorem add_task_duplicate_rejected_witness :
    ((solverA.tasks.lookup taskA2.name).isSome = true) ∧
      solverA.add_task taskA2 = (some IKError.duplicateTask, solverA) :=
  ⟨rfl, add_task_duplicate_rejected solverA taskA2 rfl⟩

/-- C9 (counterexample): a PreviewControl constructed with nb_steps = 0,
violating the horizon invariant nb_steps ≥ 1, is accepted by the
constructor without any error. -/
theorem previewControl_init_no_validation_counterexample :
    PreviewControl.init (Mat.eye 2) (Mat.eye 2) (Mat.zeros 0 2) (Vec.zeros 0)
        (Vec.zeros 2) (Vec.zeros 2) 0 none none 1000 1 =
      Except.ok (PreviewControl.initState (Mat.eye 2) (Mat.eye 2) (Mat.zeros 0 2)
        (Vec.zeros 0) (Vec.zeros 2) (Vec.zeros 2) 0 none none 1000 1) := rfl

/-- C9 (amended): the PreviewControl constructor performs no dimension or
horizon validation and never raises; it stores the inputs unchanged, and
any malformed-dimension failure can only surface in later calls. -/
theorem previewControl_init_never_fails (A B G : Mat) (h : Vec) (x_init x_goal : Vec)
    (nb_steps : ℕ) (E : Option Mat) (f : Option Vec) (wx wu : ℚ) :
    PreviewControl.init A B G h x_init x_goal nb_steps E f wx wu =
      Except.ok (PreviewControl.initState A B G h x_init x_goal nb_steps E f wx wu) ∧
    (PreviewControl.initState A B G h x_init x_goal nb_steps E f wx wu).nb_steps = nb_steps :=
  ⟨rfl, rfl⟩

/-- C10: get_next_control always works on blocks of the fixed width 3:
with no plan it returns the length-3 zero control with zero timestep and
an unchanged state; with an exhausted plan (three times the cursor at or
past the trajectory length) it discards the plan and returns the same
zero pair; otherwise it returns the 3-wide slice at the cursor with the
plan timestep and advances the cursor by one; and on a trajectory of
length 4 (not a multiple of 3) at cursor 1 it returns the final 1-entry
sample rather than treating the plan as exhausted. -/
theorem get_next_control_fixed_block :
    (∀ s : PBState, s.preview = none →
        PreviewBuffer.get_next_control s = ((List.replicate 3 0, 0), s)) ∧
    (∀ (s : PBState) (p : Plan), s.preview = some p → p.U.length ≤ 3 * s.preview_index →
        PreviewBuffer.get_next_control s =
          ((List.replicate 3 0, 0), { s with preview := none })) ∧
    (∀ (s : PBState) (p : Plan), s.preview = some p → 3 * s.preview_index < p.U.length →
        PreviewBuffer.get_next_control s =
          (((p.U.drop (3 * s.preview_index)).take 3, p.timestep),
            { s with preview_index := s.preview_index + 1 })) ∧
    PreviewBuffer.get_next_control ⟨[], some ⟨[1, 2, 3, 4], 5⟩, 1, 0⟩ =
      (([4], 5), ⟨[], some ⟨[1, 2, 3, 4], 5⟩, 2, 0⟩) := by
  refine ⟨?_, ?_, ?_, ?_⟩
  · intro s hs
    simp [PreviewBuffer.get_next_control, hs]
  · intro s p hp hle
    have h0 : ((p.U.drop (3 * s.preview_index)).take 3).length = 0 := by
      simp only [List.length_take, List.length_drop]
      omega
    simp [PreviewBuffer.get_next_control, hp, h0]
  · intro s p hp hlt
    have h0 : ¬ ((p.U.drop (3 * s.preview_index)).take 3).length = 0 := by
      simp only [List.length_take, List.length_drop]
      omega
    simp [PreviewBuffer.get_next_control, hp, h0]
    omega
  · rfl

/-- Witness for C10 at a concrete planless buffer state. -/
theorem get_next_control_fixed_block_witness :
    PreviewBuffer.get_next_control ⟨[], none, 0, 0⟩ = ((List.replicate 3 0, 0), ⟨[], none, 0, 0⟩) :=
  get_next_control_fixed_block.1 ⟨[], none, 0, 0⟩ rfl

/-- The phi and psi components of the compute_dynamics fold satisfy the
spec recurrence. -/
lemma dynFold_phi_psi (st : PCState) (nb : ℕ) :
    ((List.range nb).foldl (dynStep st)
        ⟨Mat.eye st.x_dim, Mat.zeros st.x_dim st.U_dim, [], []⟩).phi
      = phiSpec st.A st.x_dim nb ∧
    ((List.range nb).foldl (dynStep st)
        ⟨Mat.eye st.x_dim, Mat.zeros st.x_dim st.U_dim, [], []⟩).psi
      = psiSpec st.A st.B st.x_dim st.u_dim st.U_dim nb := by
  induction nb with
  | zero => exact ⟨rfl, rfl⟩
  | succ n ih =>
    rw [List.range_succ, List.foldl_append, List.foldl_cons, List.foldl_nil]
    refine ⟨?_, ?_⟩
    · show Mat.mul st.A _ = _
      rw [ih.1]
      rfl
    · show Mat.setColsBlock (Mat.mul st.A _) _ _ _ = _
      rw [ih.2]
      rfl

/-- Row count of the spec recurrence for phi, for a square A. -/
lemma phiSpec_rows (A : Mat) (hA : A.rows = A.cols) (k : ℕ) :
    (phiSpec A A.cols k).rows = A.cols := by
  cases k with
  | zero => rfl
  | succ n => exact hA

/-- Column count of the spec recurrence for phi. -/
lemma phiSpec_cols (A : Mat) (xd : ℕ) (k : ℕ) : (phiSpec A xd k).cols = xd := by
  induction k with
  | zero => rfl
  | succ n ih => exact ih

/-- Row count of the spec recurrence for psi, for a square A. -/
lemma psiSpec_rows (A Bm : Mat) (ud Ud : ℕ) (hA : A.rows = A.cols) (k : ℕ) :
    (psiSpec A Bm A.cols ud Ud k).rows = A.cols := by
  cases k with
  | zero => rfl
  | succ n => exact hA

/-- Column count of the spec recurrence for psi. -/
lemma psiSpec_cols (A Bm : Mat) (xd ud Ud : ℕ) (k : ℕ) :
    (psiSpec A Bm xd ud Ud k).cols = Ud := by
  induction k with
  | zero => rfl
  | succ n ih => exact ih

/-- C3: compute_dynamics realizes exactly the recurrence Phi 0 = I,
Psi 0 = 0, Phi (k+1) = A Phi k, Psi (k+1) = A Psi k with the k-th control
block, columns [u_dim k, u_dim (k+1)), set to B; after the full iteration
the stored phi_last has dimensions (x_dim, x_dim) and psi_last has
dimensions (x_dim, U_dim) with U_dim = u_dim * nb_steps, for a
well-formed square A. -/
theorem compute_dynamics_recurrence (A B G : Mat) (h x_init x_goal : Vec)
    (nb : ℕ) (E : Option Mat) (f : Option Vec) (wx wu : ℚ)
    (hA : A.rows = A.cols) :
    (PreviewControl.compute_dynamics (PreviewControl.initState A B G h x_init x_goal nb E f wx wu)).phi_last
      = some (phiSpec A A.cols nb) ∧
    (PreviewControl.compute_dynamics (PreviewControl.initState A B G h x_init x_goal nb E f wx wu)).psi_last
      = some (psiSpec A B A.cols B.cols (B.cols * nb) nb) ∧
    (phiSpec A A.cols nb).rows = A.cols ∧
    (phiSpec A A.cols nb).cols = A.cols ∧
    (psiSpec A B A.cols B.cols (B.cols * nb) nb).rows = A.cols ∧
    (psiSpec A B A.cols B.cols (B.cols * nb) nb).cols = B.cols * nb ∧
    (∀ k i j, B.cols * k ≤ j → j < B.cols * (k + 1) →
      (psiSpec A B A.cols B.cols (B.cols * nb) (k + 1)).entry i j
        = B.entry i (j - B.cols * k)) := by
  refine ⟨?_, ?_, phiSpec_rows A hA nb, phiSpec_cols A A.cols nb,
    psiSpec_rows A B B.cols (B.cols * nb) hA nb,
    psiSpec_cols A B A.cols B.cols (B.cols * nb) nb, ?_⟩
  · exact congrArg some
      (dynFold_phi_psi (PreviewControl.initState A B G h x_init x_goal nb E f wx wu) nb).1
  · exact congrArg some
      (dynFold_phi_psi (PreviewControl.initState A B G h x_init x_goal nb E f wx wu) nb).2
  · intro k i j hlo hhi
    show (Mat.setColsBlock _ _ _ _).entry i j = _
    simp only [Mat.setColsBlock]
    rw [if_pos ⟨hlo, hhi⟩]

/-- Witness for C3 at a concrete square system. -/
theorem compute_dynamics_recurrence_witness :
    ((Mat.eye 2).rows = (Mat.eye 2).cols) ∧
    ((PreviewControl.compute_dynamics (PreviewControl.initState (Mat.eye 2) (Mat.eye 2) (Mat.zeros 0 2) (Vec.zeros 0)
        (Vec.zeros 2) (Vec.zeros 2) 2 none none 1000 1)).phi_last
      = some (phiSpec (Mat.eye 2) (Mat.eye 2).cols 2)) :=
  ⟨rfl, (compute_dynamics_recurrence (Mat.eye 2) (Mat.eye 2) (Mat.zeros 0 2) (Vec.zeros 0)
    (Vec.zeros 2) (Vec.zeros 2) 2 none none 1000 1 rfl).1⟩

/-- When state constraints are present, each iteration of the
compute_dynamics loop appends exactly one constraint block. -/
lemma dynFold_G_count (st : PCState) (Em : Mat) (hE : st.E = some Em) (nb : ℕ) :
    ((List.range nb).foldl (dynStep st)
        ⟨Mat.eye st.x_dim, Mat.zeros st.x_dim st.U_dim, [], []⟩).G_list.length = nb := by
  induction nb with
  | zero => rfl
  | succ n ih =>
    rw [List.range_succ, List.foldl_append, List.foldl_cons, List.foldl_nil]
    simp [dynStep, hE, ih]

/-- C8: for a PreviewControl built with state constraints E supplied,
compute_dynamics still accumulates one constraint block per horizon step,
yet the following compute_control call fails on the assert that state
constraints are absent, for every backend, without solving. -/
theorem compute_control_asserts_no_state_constraints (A B G : Mat) (h x_init x_goal : Vec)
    (nb : ℕ) (E0 : Mat) (f : Option Vec) (wx wu : ℚ)
    (solver : Mat → Vec → Mat → Vec → Option Vec) :
    (PreviewControl.compute_dynamics (PreviewControl.initState A B G h x_init x_goal nb (some E0) f wx wu)).G_state.length = nb ∧
    PreviewControl.compute_control
        (PreviewControl.compute_dynamics (PreviewControl.initState A B G h x_init x_goal nb (some E0) f wx wu)) solver
      = Except.error PCError.stateConstraintsAsserted := by
  exact ⟨dynFold_G_count (PreviewControl.initState A B G h x_init x_goal nb (some E0) f wx wu) E0 rfl nb, rfl⟩

/-- Summing a Kronecker-delta row against a function picks the entry. -/
lemma sum_delta_mul (n i : ℕ) (hi : i < n) (f : ℕ → ℚ) :
    (∑ j ∈ Finset.range n, (if i = j then (1 : ℚ) else 0) * f j) = f i := by
  simp only [ite_mul, one_mul, zero_mul]
  rw [Finset.sum_ite_eq]
  simp [hi]

/-- Row i of the assembled inequality matrix, for i below n: the i-th
identity row. -/
lemma qpG_row_id (n i : ℕ) (hi : i < n) (j : ℕ) :
    (qpG n).entry i j = (if i = j then (1 : ℚ) else 0) := by
  simp [qpG, Mat.vstack, Mat.eye, hi]

/-- Row n + i of the assembled inequality matrix: the negated i-th
identity row. -/
lemma qpG_row_neg (n i : ℕ) (j : ℕ) :
    (qpG n).entry (n + i) j = -(if i = j then (1 : ℚ) else 0) := by
  have hlt : ¬ (n + i < n) := by omega
  simp [qpG, Mat.vstack, Mat.eye, Mat.neg, hlt]

/-- C2: whenever the backend returns a solution qd that satisfies the
assembled inequalities (the backend contract), the velocity returned by
compute_velocity lies componentwise between the effective bounds; those
bounds are exactly min(qd_max, doflim_gain (q_max - q)/dt) and
max(qd_min, doflim_gain (q_min - q)/dt) on the active DOFs, and the
assembled constraints are exactly G = [I; -I], h = [qd_max, -qd_min]
with primed bounds. -/
theorem compute_velocity_within_bounds
    (solver : Mat → Vec → Mat → Vec → Option Vec)
    (s : VelocitySolver) (robot : Robot) (dt : ℚ) (qd : Vec)
    (hn : robot.active_dofs.length = robot.nb_active_dofs)
    (hw : ∀ t ∈ s.tasks.map Prod.snd, ∃ w, t.weight = some w ∧ 0 ≤ w)
    (hpos : ∃ t ∈ s.tasks.map Prod.snd, ∃ w, t.weight = some w ∧ 0 < w)
    (hok : VelocitySolver.compute_velocity solver s robot dt = Except.ok qd)
    (hfeas : ∀ i < 2 * robot.nb_active_dofs,
      ((qpG robot.nb_active_dofs).mulVec qd).entry i
        ≤ (qpH robot s.doflim_gain dt).entry i) :
    ∀ i < robot.nb_active_dofs,
      (qdMinPrime robot s.doflim_gain dt).entry i ≤ qd.entry i ∧
      qd.entry i ≤ (qdMaxPrime robot s.doflim_gain dt).entry i ∧
      (qdMaxPrime robot s.doflim_gain dt).entry i
        = min ((Vec.select robot.qd_max robot.active_dofs).entry i)
            (s.doflim_gain * ((Vec.select robot.q_max robot.active_dofs).entry i
              - robot.q_active.entry i) / dt) ∧
      (qdMinPrime robot s.doflim_gain dt).entry i
        = max ((Vec.select robot.qd_min robot.active_dofs).entry i)
            (s.doflim_gain * ((Vec.select robot.q_min robot.active_dofs).entry i
              - robot.q_active.entry i) / dt) ∧
      (∀ j < robot.nb_active_dofs,
        (qpG robot.nb_active_dofs).entry i j = (if i = j then 1 else 0) ∧
        (qpG robot.nb_active_dofs).entry (robot.nb_active_dofs + i) j
          = (if i = j then -1 else 0)) ∧
      (qpH robot s.doflim_gain dt).entry i = (qdMaxPrime robot s.doflim_gain dt).entry i ∧
      (qpH robot s.doflim_gain dt).entry (robot.nb_active_dofs + i)
        = -((qdMinPrime robot s.doflim_gain dt).entry i) := by
  intro i hi
  have hlen : (qdMaxPrime robot s.doflim_gain dt).len = robot.nb_active_dofs := by
    show robot.active_dofs.length = robot.nb_active_dofs
    exact hn
  have hH1 : (qpH robot s.doflim_gain dt).entry i
      = (qdMaxPrime robot s.doflim_gain dt).entry i := by
    have heq : (qpH robot s.doflim_gain dt).entry i
        = if i < (qdMaxPrime robot s.doflim_gain dt).len
          then (qdMaxPrime robot s.doflim_gain dt).entry i
          else (Vec.neg (qdMinPrime robot s.doflim_gain dt)).entry
            (i - (qdMaxPrime robot s.doflim_gain dt).len) := rfl
    rw [heq, hlen, if_pos hi]
  have hH2 : (qpH robot s.doflim_gain dt).entry (robot.nb_active_dofs + i)
      = -((qdMinPrime robot s.doflim_gain dt).entry i) := by
    have heq : (qpH robot s.doflim_gain dt).entry (robot.nb_active_dofs + i)
        = if robot.nb_active_dofs + i < (qdMaxPrime robot s.doflim_gain dt).len
          then (qdMaxPrime robot s.doflim_gain dt).entry (robot.nb_active_dofs + i)
          else (Vec.neg (qdMinPrime robot s.doflim_gain dt)).entry
            (robot.nb_active_dofs + i - (qdMaxPrime robot s.doflim_gain dt).len) := rfl
    rw [heq, hlen, if_neg (by omega)]
    show -((qdMinPrime robot s.doflim_gain dt).entry
      (robot.nb_active_dofs + i - robot.nb_active_dofs)) = _
    rw [Nat.add_sub_cancel_left]
  have hmv1 : ((qpG robot.nb_active_dofs).mulVec qd).entry i = qd.entry i := by
    have heq : ((qpG robot.nb_active_dofs).mulVec qd).entry i
        = ∑ j ∈ Finset.range robot.nb_active_dofs,
            (qpG robot.nb_active_dofs).entry i j * qd.entry j := rfl
    rw [heq]
    calc (∑ j ∈ Finset.range robot.nb_active_dofs,
            (qpG robot.nb_active_dofs).entry i j * qd.entry j)
        = ∑ j ∈ Finset.range robot.nb_active_dofs,
            (if i = j then (1 : ℚ) else 0) * qd.entry j := by
          exact Finset.sum_congr rfl (fun j _ => by rw [qpG_row_id _ _ hi])
      _ = qd.entry i := sum_delta_mul _ i hi qd.entry
  have hmv2 : ((qpG robot.nb_active_dofs).mulVec qd).entry (robot.nb_active_dofs + i)
      = -(qd.entry i) := by
    have heq : ((qpG robot.nb_active_dofs).mulVec qd).entry (robot.nb_active_dofs + i)
        = ∑ j ∈ Finset.range robot.nb_active_dofs,
            (qpG robot.nb_active_dofs).entry (robot.nb_active_dofs + i) j * qd.entry j := rfl
    rw [heq]
    calc (∑ j ∈ Finset.range robot.nb_active_dofs,
            (qpG robot.nb_active_dofs).entry (robot.nb_active_dofs + i) j * qd.entry j)
        = ∑ j ∈ Finset.range robot.nb_active_dofs,
            -((if i = j then (1 : ℚ) else 0) * qd.entry j) := by
          exact Finset.sum_congr rfl (fun j _ => by rw [qpG_row_neg]; ring)
      _ = -(∑ j ∈ Finset.range robot.nb_active_dofs,
            (if i = j then (1 : ℚ) else 0) * qd.entry j) := by
          rw [Finset.sum_neg_distrib]
      _ = -(qd.entry i) := by rw [sum_delta_mul _ i hi qd.entry]
  have hub : qd.entry i ≤ (qdMaxPrime robot s.doflim_gain dt).entry i := by
    have := hfeas i (by omega)
    rw [hmv1, hH1] at this
    exact this
  have hlb : (qdMinPrime robot s.doflim_gain dt).entry i ≤ qd.entry i := by
    have := hfeas (robot.nb_active_dofs + i) (by omega)
    rw [hmv2, hH2] at this
    linarith
  refine ⟨hlb, hub, rfl, rfl, ?_, hH1, hH2⟩
  intro j _
  constructor
  · exact qpG_row_id _ _ hi j
  · rw [qpG_row_neg]
    split_ifs <;> norm_num

/-- QP backend stub that returns a fixed vector. -/
def constSolverW : Mat → Vec → Mat → Vec → Option Vec :=
  fun _ _ _ _ => some ⟨1, fun _ => 0⟩

/-- One-DOF robot fixture with unit bounds and zero configuration. -/
def robotW : Robot :=
  ⟨1, [0], ⟨1, fun _ => 0⟩, ⟨1, fun _ => -1⟩, ⟨1, fun _ => 1⟩, ⟨1, fun _ => -1⟩,
    ⟨1, fun _ => 1⟩⟩

/-- Witness for C2 at a concrete one-DOF instance. -/
theorem compute_velocity_within_bounds_witness :
    (robotW.active_dofs.length = robotW.nb_active_dofs) ∧
    (∀ t ∈ solverA.tasks.map Prod.snd, ∃ w, t.weight = some w ∧ 0 ≤ w) ∧
    (∃ t ∈ solverA.tasks.map Prod.snd, ∃ w, t.weight = some w ∧ 0 < w) ∧
    (VelocitySolver.compute_velocity constSolverW solverA robotW 1
      = Except.ok ⟨1, fun _ => 0⟩) ∧
    (∀ i < 2 * robotW.nb_active_dofs,
      ((qpG robotW.nb_active_dofs).mulVec ⟨1, fun _ => 0⟩).entry i
        ≤ (qpH robotW solverA.doflim_gain 1).entry i) ∧
    (∀ i < robotW.nb_active_dofs,
      (qdMinPrime robotW solverA.doflim_gain 1).entry i ≤ (0 : ℚ) ∧
      (0 : ℚ) ≤ (qdMaxPrime robotW solverA.doflim_gain 1).entry i) := by
  have hfeas : ∀ i < 2 * robotW.nb_active_dofs,
      ((qpG robotW.nb_active_dofs).mulVec ⟨1, fun _ => 0⟩).entry i
        ≤ (qpH robotW solverA.doflim_gain 1).entry i := by
    intro i hi
    have h2 : i < 2 := hi
    interval_cases i <;>
      norm_num [qpG, qpH, Mat.mulVec, Mat.vstack, Mat.eye, Mat.neg, Vec.append,
        qdMaxPrime, qdMinPrime, qdMaxDoflim, qdMinDoflim, Vec.minV, Vec.maxV,
        Vec.select, Vec.neg, Vec.smul, Vec.sub, Vec.divScalar, robotW, solverA,
        Finset.sum_range_one]
  have hw : ∀ t ∈ solverA.tasks.map Prod.snd, ∃ w, t.weight = some w ∧ (0 : ℚ) ≤ w := by
    intro t ht
    simp [solverA] at ht
    exact ⟨1, ht ▸ rfl, by norm_num⟩
  have hpos : ∃ t ∈ solverA.tasks.map Prod.snd, ∃ w, t.weight = some w ∧ (0 : ℚ) < w := by
    refine ⟨taskA, by simp [solverA], 1, rfl, by norm_num⟩
  refine ⟨rfl, hw, hpos, rfl, hfeas, ?_⟩
  intro i hi
  have hall := compute_velocity_within_bounds constSolverW solverA robotW 1
    ⟨1, fun _ => 0⟩ rfl hw hpos rfl hfeas i hi
  exact ⟨hall.1, hall.2.1⟩

/-- A pull from an exhausted plan returns the zero pair. -/
lemma gnc_exhausted_fst (c : List ℚ) (U : List ℚ) (T : ℚ) (idx : ℕ) (rem : ℚ)
    (hle : U.length ≤ 3 * idx) :
    (PreviewBuffer.get_next_control ⟨c, some ⟨U, T⟩, idx, rem⟩).1
      = (List.replicate 3 0, 0) := by
  have h0 : ((U.drop (3 * idx)).take 3).length = 0 := by
    simp only [List.length_take, List.length_drop]
    omega
  simp [PreviewBuffer.get_next_control, h0]

/-- A tick from a fresh-sample boundary with samples left: pulls sample k,
publishes it, and leaves half the sample time remaining. -/
lemma tick_pull (U : List ℚ) (T : ℚ) (c : List ℚ) (k N : ℕ) (hT : 0 < T)
    (hU : U.length = 3 * N) (hk : k < N) :
    PreviewBuffer.on_tick ⟨c, some ⟨U, T⟩, k, 0⟩ (T / 2)
      = ((sampleAt U k, T / 2), ⟨sampleAt U k, some ⟨U, T⟩, k + 1, T / 2⟩) := by
  have hdt : (0 : ℚ) < T / 2 := by positivity
  have hne : ¬ (((U.drop (3 * k)).take 3).length = 0) := by
    simp only [List.length_take, List.length_drop]
    omega
  simp only [PreviewBuffer.on_tick, PreviewBuffer.get_next_control]
  rw [if_pos hdt, if_neg hne]
  have hsub : T - T / 2 = T / 2 := by ring
  show ((List.take 3 (List.drop (3 * k) U), T / 2),
      (⟨List.take 3 (List.drop (3 * k) U), some ⟨U, T⟩, k + 1, T - T / 2⟩ : PBState))
    = ((sampleAt U k, T / 2), ⟨sampleAt U k, some ⟨U, T⟩, k + 1, T / 2⟩)
  rw [hsub]
  rfl

/-- A tick in the middle of a held sample: no pull, the held control is
republished, the held time falls to zero. -/
lemma tick_hold (c : List ℚ) (pr : Option Plan) (idx : ℕ) (T : ℚ) :
    PreviewBuffer.on_tick ⟨c, pr, idx, T / 2⟩ (T / 2)
      = ((c, T / 2), ⟨c, pr, idx, 0⟩) := by
  have hlt : ¬ ((T / 2 : ℚ) < T / 2) := lt_irrefl _
  simp only [PreviewBuffer.on_tick]
  rw [if_neg hlt]
  have hsub : T / 2 - T / 2 = 0 := by ring
  show ((c, T / 2), (⟨c, pr, idx, T / 2 - T / 2⟩ : PBState)) = ((c, T / 2), ⟨c, pr, idx, 0⟩)
  rw [hsub]

/-- The first tick past the final sample: the pull hits the exhausted
plan, adopts the zero control with zero held time, and discards the
plan. -/
lemma tick_exhaust (U : List ℚ) (T : ℚ) (c : List ℚ) (N : ℕ) (hT : 0 < T)
    (hU : U.length = 3 * N) :
    PreviewBuffer.on_tick ⟨c, some ⟨U, T⟩, N, 0⟩ (T / 2)
      = ((List.replicate 3 0, T / 2), ⟨List.replicate 3 0, none, N, -(T / 2)⟩) := by
  have hdt : (0 : ℚ) < T / 2 := by positivity
  have h0 : ((U.drop (3 * N)).take 3).length = 0 := by
    simp only [List.length_take, List.length_drop]
    omega
  simp only [PreviewBuffer.on_tick, PreviewBuffer.get_next_control]
  rw [if_pos hdt, if_pos h0]
  have hsub : (0 : ℚ) - T / 2 = -(T / 2) := by ring
  show ((List.replicate 3 0, T / 2),
      (⟨List.replicate 3 0, none, N, (0 : ℚ) - T / 2⟩ : PBState))
    = ((List.replicate 3 0, T / 2), ⟨List.replicate 3 0, none, N, -(T / 2)⟩)
  rw [hsub]

/-- Every later tick: the planless pull keeps adopting the zero control
with zero held time, and the state is a fixed point. -/
lemma tick_dead (T : ℚ) (idx : ℕ) (hT : 0 < T) :
    PreviewBuffer.on_tick ⟨List.replicate 3 0, none, idx, -(T / 2)⟩ (T / 2)
      = ((List.replicate 3 0, T / 2), ⟨List.replicate 3 0, none, idx, -(T / 2)⟩) := by
  have hlt : (-(T / 2) : ℚ) < T / 2 := by
    have : (0 : ℚ) < T / 2 := by positivity
    linarith
  simp only [PreviewBuffer.on_tick, PreviewBuffer.get_next_control]
  rw [if_pos hlt]
  have hsub : (0 : ℚ) - T / 2 = -(T / 2) := by ring
  show ((List.replicate 3 0, T / 2),
      (⟨List.replicate 3 0, none, idx, (0 : ℚ) - T / 2⟩ : PBState))
    = ((List.replicate 3 0, T / 2), ⟨List.replicate 3 0, none, idx, -(T / 2)⟩)
  rw [hsub]

/-- State after an even number of ticks within the plan: the cursor sits
at k, the held time is spent, and the last served sample is sample
k - 1. -/
lemma pb_even_state (U : List ℚ) (T : ℚ) (N : ℕ) (hT : 0 < T)
    (hU : U.length = 3 * N) :
    ∀ k ≤ N, pbIter (T / 2) (planBuf U T) (2 * k)
      = ⟨if k = 0 then [] else sampleAt U (k - 1), some ⟨U, T⟩, k, 0⟩ := by
  intro k
  induction k with
  | zero => intro _; rfl
  | succ k ih =>
    intro hk1
    have hk : k < N := by omega
    have h2 : 2 * (k + 1) = (2 * k + 1) + 1 := by ring
    rw [h2]
    show (PreviewBuffer.on_tick (pbIter (T / 2) (planBuf U T) (2 * k + 1)) (T / 2)).2 = _
    have hodd : pbIter (T / 2) (planBuf U T) (2 * k + 1)
        = ⟨sampleAt U k, some ⟨U, T⟩, k + 1, T / 2⟩ := by
      show (PreviewBuffer.on_tick (pbIter (T / 2) (planBuf U T) (2 * k)) (T / 2)).2 = _
      rw [ih (by omega), tick_pull U T _ k N hT hU hk]
    rw [hodd, tick_hold]
    simp

/-- State after the plan is exhausted: a planless fixed point serving the
zero control. -/
lemma pb_dead_state (U : List ℚ) (T : ℚ) (N : ℕ) (hT : 0 < T)
    (hU : U.length = 3 * N) :
    ∀ m, pbIter (T / 2) (planBuf U T) (2 * N + 1 + m)
      = ⟨List.replicate 3 0, none, N, -(T / 2)⟩ := by
  intro m
  induction m with
  | zero =>
    show (PreviewBuffer.on_tick (pbIter (T / 2) (planBuf U T) (2 * N)) (T / 2)).2 = _
    rw [pb_even_state U T N hT hU N le_rfl, tick_exhaust U T _ N hT hU]
  | succ m ih =>
    show (PreviewBuffer.on_tick (pbIter (T / 2) (planBuf U T) (2 * N + 1 + m)) (T / 2)).2 = _
    rw [ih, tick_dead T N hT]

/-- C5: for a plan with N width-3 control blocks of timestep T driven by
ticks of size T / 2 from a fresh buffer, each sample k is passed to the
callback on exactly the two consecutive ticks 2 k + 1 and 2 k + 2, and
from tick 2 N + 1 on, every tick pulls the zero control with zero held
time and passes the zero control to the callback. -/
theorem preview_buffer_two_ticks_per_sample (U : List ℚ) (T : ℚ) (N : ℕ)
    (hT : 0 < T) (hU : U.length = 3 * N) :
    (∀ k < N,
      pbPub (T / 2) (planBuf U T) (2 * k) = (sampleAt U k, T / 2) ∧
      pbPub (T / 2) (planBuf U T) (2 * k + 1) = (sampleAt U k, T / 2)) ∧
    (∀ t, 2 * N ≤ t →
      pbPub (T / 2) (planBuf U T) t = (List.replicate 3 0, T / 2) ∧
      (PreviewBuffer.get_next_control (pbIter (T / 2) (planBuf U T) t)).1
        = (List.replicate 3 0, 0)) := by
  constructor
  · intro k hk
    constructor
    · show (PreviewBuffer.on_tick (pbIter (T / 2) (planBuf U T) (2 * k)) (T / 2)).1 = _
      rw [pb_even_state U T N hT hU k (by omega), tick_pull U T _ k N hT hU hk]
    · show (PreviewBuffer.on_tick (pbIter (T / 2) (planBuf U T) (2 * k + 1)) (T / 2)).1 = _
      have hodd : pbIter (T / 2) (planBuf U T) (2 * k + 1)
          = ⟨sampleAt U k, some ⟨U, T⟩, k + 1, T / 2⟩ := by
        show (PreviewBuffer.on_tick (pbIter (T / 2) (planBuf U T) (2 * k)) (T / 2)).2 = _
        rw [pb_even_state U T N hT hU k (by omega), tick_pull U T _ k N hT hU hk]
      rw [hodd, tick_hold]
  · intro t ht
    rcases Nat.lt_or_ge t (2 * N + 1) with hcase | hcase
    · have ht2 : t = 2 * N := by omega
      subst ht2
      constructor
      · show (PreviewBuffer.on_tick (pbIter (T / 2) (planBuf U T) (2 * N)) (T / 2)).1 = _
        rw [pb_even_state U T N hT hU N le_rfl, tick_exhaust U T _ N hT hU]
      · rw [pb_even_state U T N hT hU N le_rfl]
        exact gnc_exhausted_fst _ U T N 0 (by omega)
    · have ht3 : 2 * N + 1 + (t - (2 * N + 1)) = t := by omega
      constructor
      · show (PreviewBuffer.on_tick (pbIter (T / 2) (planBuf U T) t) (T / 2)).1 = _
        rw [← ht3, pb_dead_state U T N hT hU, tick_dead T N hT]
      · rw [← ht3, pb_dead_state U T N hT hU]
        rfl

/-- Witness for C5 with a one-sample plan. -/
theorem preview_buffer_two_ticks_per_sample_witness :
    ((0 : ℚ) < 2) ∧ ([(1 : ℚ), 2, 3].length = 3 * 1) ∧
    pbPub ((2 : ℚ) / 2) (planBuf [1, 2, 3] 2) 0 = (sampleAt [1, 2, 3] 0, 2 / 2) :=
  ⟨by norm_num, rfl,
    ((preview_buffer_two_ticks_per_sample [1, 2, 3] 2 1 (by norm_num) rfl).1 0
      (by norm_num)).1⟩

/-- psi_last of a built controller state, defaulting to an empty matrix. -/
def psiOf (st : PCState) : Mat := st.psi_last.getD (Mat.zeros 0 0)

/-- phi_last of a built controller state, defaulting to an empty matrix. -/
def phiOf (st : PCState) : Mat := st.phi_last.getD (Mat.zeros 0 0)

/-- The trivial single-step controller state of the closed-form check:
A = I, B = I, no inequality constraints, x_init = 0, x_goal = g, one
step, after compute_dynamics. -/
def c4state (n : ℕ) (g : Vec) (wx wu : ℚ) : PCState :=
  PreviewControl.compute_dynamics
    (PreviewControl.initState (Mat.eye n) (Mat.eye n) (Mat.zeros 0 n) (Vec.zeros 0)
      (Vec.zeros n) g 1 none none wx wu)

/-- Kronecker-delta column with an arbitrary coefficient. -/
lemma sum_delta_const_mul (n i : ℕ) (hi : i < n) (c : ℚ) (f : ℕ → ℚ) :
    (∑ j ∈ Finset.range n, (if i = j then c else 0) * f j) = c * f i := by
  simp only [ite_mul, zero_mul]
  rw [Finset.sum_ite_eq]
  simp [hi]

/-- Kronecker-delta on the right picks the entry. -/
lemma sum_mul_delta (n i : ℕ) (hi : i < n) (f : ℕ → ℚ) :
    (∑ j ∈ Finset.range n, f j * (if j = i then (1 : ℚ) else 0)) = f i := by
  simp only [mul_ite, mul_one, mul_zero]
  rw [Finset.sum_ite_eq']
  simp [hi]

/-- In the single-step identity system, psi_last acts as the identity on
the meaningful columns. -/
lemma c4_psi_entry (n : ℕ) (g : Vec) (wx wu : ℚ) (a b : ℕ) (hb : b < n) :
    (psiOf (c4state n g wx wu)).entry a b = (if a = b then (1 : ℚ) else 0) := by
  show (Mat.setColsBlock (Mat.mul (Mat.eye n) (Mat.zeros n (n * 1))) (n * 0) (n * 1)
      (Mat.eye n)).entry a b = _
  simp only [Mat.setColsBlock]
  rw [if_pos ⟨by omega, by omega⟩]
  simp only [Nat.mul_zero, Nat.sub_zero]
  rfl

/-- In the single-step identity system, phi_last maps the zero initial
state to zero. -/
lemma c4_phi_zero (n : ℕ) (g : Vec) (wx wu : ℚ) (a : ℕ) :
    (Mat.mulVec (phiOf (c4state n g wx wu)) (Vec.zeros n)).entry a = 0 := by
  show (∑ j ∈ Finset.range n, (phiOf (c4state n g wx wu)).entry a j
    * (Vec.zeros n).entry j) = 0
  simp [Vec.zeros]

/-- In the single-step identity system, phi_last is the identity
product. -/
lemma c4_phi_entry (n : ℕ) (g : Vec) (wx wu : ℚ) (a b : ℕ) (ha : a < n) :
    (phiOf (c4state n g wx wu)).entry a b = (if a = b then (1 : ℚ) else 0) := by
  show (∑ k ∈ Finset.range n, (Mat.eye n).entry a k * (Mat.eye n).entry k b) = _
  calc (∑ k ∈ Finset.range n, (Mat.eye n).entry a k * (Mat.eye n).entry k b)
      = ∑ k ∈ Finset.range n,
          (if a = k then (1 : ℚ) else 0) * (if k = b then (1 : ℚ) else 0) := rfl
    _ = if a = b then 1 else 0 := by
        simp only [ite_mul, one_mul, zero_mul]
        rw [Finset.sum_ite_eq]
        simp [ha]

/-- C4: for the single-step system A = I, B = I, nb_steps = 1, no
inequality constraints, x_init = 0, x_goal = g, when the backend returns
the exact minimizer of the assembled cost (stationarity of the quadratic
form built by compute_control), the stacked control satisfies
U = wx / (wx + wu) * g componentwise. -/
theorem preview_control_single_step_blend (n : ℕ) (g : Vec) (wx wu : ℚ)
    (solver : Mat → Vec → Mat → Vec → Option Vec) (Uv : Vec)
    (hwx : 0 < wx) (hwu : 0 < wu)
    (hok : PreviewControl.compute_control (c4state n g wx wu) solver = Except.ok Uv)
    (hstat : ∀ i < n,
      ((ccP (c4state n g wx wu) (psiOf (c4state n g wx wu))).mulVec Uv).entry i
        + (ccQ (c4state n g wx wu) (psiOf (c4state n g wx wu))
            (phiOf (c4state n g wx wu))).entry i = 0) :
    ∀ i < n, Uv.entry i = wx / (wx + wu) * g.entry i := by
  intro i hi
  have hPx : ∀ j, j < n →
      (Mat.mul (Mat.transpose (psiOf (c4state n g wx wu))) (psiOf (c4state n g wx wu))).entry i j
        = (if i = j then (1 : ℚ) else 0) := by
    intro j hj
    show (∑ a ∈ Finset.range n, (psiOf (c4state n g wx wu)).entry a i
        * (psiOf (c4state n g wx wu)).entry a j) = _
    calc (∑ a ∈ Finset.range n, (psiOf (c4state n g wx wu)).entry a i
          * (psiOf (c4state n g wx wu)).entry a j)
        = ∑ a ∈ Finset.range n,
            (if a = i then (1 : ℚ) else 0) * (if a = j then (1 : ℚ) else 0) := by
          refine Finset.sum_congr rfl fun a _ => ?_
          rw [c4_psi_entry n g wx wu a i hi, c4_psi_entry n g wx wu a j hj]
      _ = if i = j then 1 else 0 := by
          simp only [ite_mul, one_mul, zero_mul]
          rw [Finset.sum_ite_eq']
          simp [hi]
  have hent : ∀ j, j < n →
      (ccP (c4state n g wx wu) (psiOf (c4state n g wx wu))).entry i j
        = (if i = j then wx + wu else 0) := by
    intro j hj
    show wx * ((Mat.mul (Mat.transpose (psiOf (c4state n g wx wu)))
        (psiOf (c4state n g wx wu))).entry i j)
      + wu * ((Mat.eye (n * 1)).entry i j) = _
    have heye : (Mat.eye (n * 1)).entry i j = (if i = j then (1 : ℚ) else 0) := rfl
    rw [hPx j hj, heye]
    split_ifs <;> ring
  have hPmv : ((ccP (c4state n g wx wu) (psiOf (c4state n g wx wu))).mulVec Uv).entry i
      = (wx + wu) * Uv.entry i := by
    show (∑ j ∈ Finset.range (n * 1),
      (ccP (c4state n g wx wu) (psiOf (c4state n g wx wu))).entry i j * Uv.entry j) = _
    rw [Nat.mul_one]
    calc (∑ j ∈ Finset.range n,
          (ccP (c4state n g wx wu) (psiOf (c4state n g wx wu))).entry i j * Uv.entry j)
        = ∑ j ∈ Finset.range n, (if i = j then wx + wu else 0) * Uv.entry j := by
          refine Finset.sum_congr rfl fun j hj => ?_
          rw [hent j (Finset.mem_range.mp hj)]
      _ = (wx + wu) * Uv.entry i := sum_delta_const_mul n i hi (wx + wu) Uv.entry
  have hb : (Vec.mulMat
      (Vec.sub g (Mat.mulVec (phiOf (c4state n g wx wu)) (Vec.zeros n)))
      (psiOf (c4state n g wx wu))).entry i = g.entry i := by
    show (∑ a ∈ Finset.range n,
      (Vec.sub g (Mat.mulVec (phiOf (c4state n g wx wu)) (Vec.zeros n))).entry a
        * (psiOf (c4state n g wx wu)).entry a i) = _
    calc (∑ a ∈ Finset.range n,
          (Vec.sub g (Mat.mulVec (phiOf (c4state n g wx wu)) (Vec.zeros n))).entry a
            * (psiOf (c4state n g wx wu)).entry a i)
        = ∑ a ∈ Finset.range n, g.entry a * (if a = i then (1 : ℚ) else 0) := by
          refine Finset.sum_congr rfl fun a _ => ?_
          show (g.entry a - (Mat.mulVec (phiOf (c4state n g wx wu)) (Vec.zeros n)).entry a)
              * (psiOf (c4state n g wx wu)).entry a i = _
          rw [c4_phi_zero n g wx wu a, c4_psi_entry n g wx wu a i hi]
          ring
      _ = g.entry i := sum_mul_delta n i hi g.entry
  have hQ : (ccQ (c4state n g wx wu) (psiOf (c4state n g wx wu))
      (phiOf (c4state n g wx wu))).entry i = wx * (-(g.entry i)) + wu * 0 := by
    show wx * (-((Vec.mulMat
        (Vec.sub g (Mat.mulVec (phiOf (c4state n g wx wu)) (Vec.zeros n)))
        (psiOf (c4state n g wx wu))).entry i)) + wu * 0 = _
    rw [hb]
  have h := hstat i hi
  rw [hPmv, hQ] at h
  have hne : wx + wu ≠ 0 := by positivity
  field_simp
  linear_combination h

/-- Backend stub returning the expected single-step blend for the witness
instance. -/
def c4SolverW : Mat → Vec → Mat → Vec → Option Vec :=
  fun _ _ _ _ => some ⟨1, fun _ => 1 / 2⟩

/-- Goal vector of the C4 witness instance. -/
def c4gW : Vec := ⟨1, fun _ => 1⟩

/-- Witness for C4 at n = 1, g = [1], wx = wu = 1. -/
theorem preview_control_single_step_blend_witness :
    ((0 : ℚ) < 1) ∧
    (PreviewControl.compute_control (c4state 1 c4gW 1 1) c4SolverW
      = Except.ok ⟨1, fun _ => 1 / 2⟩) ∧
    (∀ i < 1,
      ((ccP (c4state 1 c4gW 1 1) (psiOf (c4state 1 c4gW 1 1))).mulVec
          ⟨1, fun _ => 1 / 2⟩).entry i
        + (ccQ (c4state 1 c4gW 1 1) (psiOf (c4state 1 c4gW 1 1))
            (phiOf (c4state 1 c4gW 1 1))).entry i = 0) ∧
    (∀ i < 1, (⟨1, fun _ => 1 / 2⟩ : Vec).entry i = 1 / (1 + 1) * c4gW.entry i) := by
  have hstat : ∀ i < 1,
      ((ccP (c4state 1 c4gW 1 1) (psiOf (c4state 1 c4gW 1 1))).mulVec
          ⟨1, fun _ => 1 / 2⟩).entry i
        + (ccQ (c4state 1 c4gW 1 1) (psiOf (c4state 1 c4gW 1 1))
            (phiOf (c4state 1 c4gW 1 1))).entry i = 0 := by
    intro i hi
    interval_cases i
    have hrows : (psiOf (c4state 1 c4gW 1 1)).rows = 1 := rfl
    have hcols : (phiOf (c4state 1 c4gW 1 1)).cols = 1 := rfl
    have hwxp : (c4state 1 c4gW 1 1).wx = 1 := rfl
    have hwup : (c4state 1 c4gW 1 1).wu = 1 := rfl
    have hxg : (c4state 1 c4gW 1 1).x_goal = c4gW := rfl
    have hxi : (c4state 1 c4gW 1 1).x_init = Vec.zeros 1 := rfl
    have hpsi00 : (psiOf (c4state 1 c4gW 1 1)).entry 0 0 = 1 := by
      rw [c4_psi_entry 1 c4gW 1 1 0 0 (by norm_num)]
      norm_num
    have hphi00 : (phiOf (c4state 1 c4gW 1 1)).entry 0 0 = 1 := by
      rw [c4_phi_entry 1 c4gW 1 1 0 0 (by norm_num)]
      norm_num
    show (∑ j ∈ Finset.range (1 * 1),
        (ccP (c4state 1 c4gW 1 1) (psiOf (c4state 1 c4gW 1 1))).entry 0 j
          * ((⟨1, fun _ => 1 / 2⟩ : Vec).entry j))
      + (ccQ (c4state 1 c4gW 1 1) (psiOf (c4state 1 c4gW 1 1))
          (phiOf (c4state 1 c4gW 1 1))).entry 0 = 0
    have hg : ∀ x, c4gW.entry x = 1 := fun _ => rfl
    norm_num [ccP, ccQ, Mat.add, Mat.smul, Mat.mul, Mat.transpose, Mat.eye,
      Vec.add, Vec.smul, Vec.neg, Vec.mulMat, Vec.sub, Mat.mulVec, Vec.zeros,
      hrows, hcols, hwxp, hwup, hxg, hxi, hpsi00, hphi00, hg,
      Finset.sum_range_one]
  refine ⟨by norm_num, rfl, hstat, ?_⟩
  exact preview_control_single_step_blend 1 c4gW 1 1 c4SolverW ⟨1, fun _ => 1 / 2⟩
    (by norm_num) (by norm_num) rfl hstat

end Pymanoid
